import Mathlib

/-!
Verification of the resolution-and-validation core of the `drycc/jsonschema`
repository (files `reference.go` and `val_object.go`), as a shallow embedding
in Lean 4.

Modelling conventions:
* Go `interface{}` instance values are modelled by the inductive `JSON`;
  the Go type assertion `v.(map[string]interface{})` becomes a match on
  `JSON.obj`.  Go maps are modelled by association lists (Go map iteration
  order is unspecified; the list order stands in for one such order).
* Sub-schema validation (`Schema.Validate`, defined outside the two source
  files) is abstracted: the object validators are parameterised over a type
  `σ` of sub-schemas together with a function `validate : σ → JSON → List
  ValidationError`.
* Compiled regular expressions (`regexp.Regexp`, external package) are
  abstracted to their `MatchString` behaviour, a predicate `String → Bool`.
* Stateful Go code (in-place mutation, the shared external-document cache)
  is modelled by explicit state passing.
-/

namespace Jsonschema

/-- Decoded JSON instance values (the Go `interface{}` data given to
`Validate`). -/
inductive JSON : Type where
  | null : JSON
  | bool (b : Bool) : JSON
  | num (n : Int) : JSON
  | str (s : String) : JSON
  | arr (xs : List JSON) : JSON
  | obj (fields : List (String × JSON)) : JSON
deriving Repr

/-- The `ValidationError` from the source: a structured error carrying a
human-readable message. -/
structure ValidationError : Type where
  message : String
deriving Repr, DecidableEq

/-- Association-list lookup, modelling a Go map read `m[k]`. -/
def lookupList {α : Type} : List (String × α) → String → Option α
  | [], _ => none
  | (k, v) :: rest, key => if k = key then some v else lookupList rest key

/-- Membership of a key, modelling the Go `_, ok := m[k]` test. -/
def hasKey {α : Type} (l : List (String × α)) (key : String) : Bool :=
  (lookupList l key).isSome

/-- Whether the instance is an object (the Go type assertion
`v.(map[string]interface{})` succeeds). -/
def JSON.isObj : JSON → Bool
  | .obj _ => true
  | _ => false

/-- The fields of an object instance. -/
def JSON.fields : JSON → List (String × JSON)
  | .obj fs => fs
  | _ => []

namespace VObj

/-- A compiled regular expression, abstracted to its `MatchString`
behaviour (the `regexp` package is an external collaborator). -/
structure Pattern : Type where
  matchString : String → Bool

section Validators

variable {σ : Type}

/-- The `dependencies` validator configuration from `val_object.go`:
per-key schema dependencies and per-key property-set dependencies. -/
structure dependencies (σ : Type) : Type where
  schemaDeps : List (String × σ)
  propertyDeps : List (String × List String)

/-- The `dependencies.Validate` from `val_object.go` (lines 17–46): on a
non-object instance return no errors; otherwise, for each schema
dependency whose key is present validate the whole instance against the
dependency schema; for each property-set dependency whose key is present
emit one error per absent companion property. -/
def dependencies.Validate (validate : σ → JSON → List ValidationError)
    (d : dependencies σ) (v : JSON) : List ValidationError :=
  match v with
  | .obj val =>
    let schemaErrs := d.schemaDeps.foldl (fun acc kv =>
      if hasKey val kv.1 then acc ++ validate kv.2 v else acc) []
    d.propertyDeps.foldl (fun acc kv =>
      if hasKey val kv.1 then
        acc ++ (kv.2.filter (fun a => !hasKey val a)).map (fun a =>
          ⟨"instance does not have a property with the name " ++ a⟩)
      else acc) schemaErrs
  | _ => []

/-- The `maxProperties` is an integer bound (Go `type maxProperties int`). -/
abbrev maxProperties : Type := Int

/-- The `maxProperties.Validate` from `val_object.go` (lines 84–94). -/
def maxProperties.Validate (m : maxProperties) (v : JSON) :
    List ValidationError :=
  match v with
  | .obj val =>
    if (val.length : Int) > m then
      [⟨"Object has more properties than maxProperties (" ++
        toString val.length ++ " > " ++ toString m ++ ")"⟩]
    else []
  | _ => []

/-- The `minProperties` is an integer bound (Go `type minProperties int`). -/
abbrev minProperties : Type := Int

/-- The `minProperties.Validate` from `val_object.go` (lines 110–120). -/
def minProperties.Validate (m : minProperties) (v : JSON) :
    List ValidationError :=
  match v with
  | .obj val =>
    if (val.length : Int) < m then
      [⟨"Object has fewer properties than minProperties (" ++
        toString val.length ++ " < " ++ toString m ++ ")"⟩]
    else []
  | _ => []

/-- The `patternProperties` validator configuration: the `object` slice of
compiled-pattern/schema pairs (`regexpToSchema`), in decode order. -/
structure patternProperties (σ : Type) : Type where
  object : List (Pattern × σ)

/-- The `patternProperties.Validate` from `val_object.go` (lines 143–157):
for each instance key and each pattern entry whose pattern matches the
key, validate the key's value against that entry's schema. -/
def patternProperties.Validate (validate : σ → JSON → List ValidationError)
    (p : patternProperties σ) (v : JSON) : List ValidationError :=
  match v with
  | .obj data =>
    data.foldl (fun acc kv =>
      p.object.foldl (fun acc2 entry =>
        if entry.1.matchString kv.1 then acc2 ++ validate entry.2 kv.2
        else acc2) acc) []
  | _ => []

/-- The `patternProperties.UnmarshalJSON` from `val_object.go` (lines
166–179), after the JSON level has produced the key/schema mapping `m`:
compile each key as a regular expression (`compile` abstracts
`regexp.Compile`, `none` modelling a compilation error); the first
compilation failure aborts the whole decode with an error, otherwise all
entries are appended. -/
def patternProperties.unmarshal (compile : String → Option Pattern)
    (m : List (String × σ)) : Except String (patternProperties σ) :=
  match m with
  | [] => .ok ⟨[]⟩
  | (key, val) :: rest =>
    match compile key with
    | none => .error ("error parsing regexp: " ++ key)
    | some r =>
      match patternProperties.unmarshal compile rest with
      | .error e => .error e
      | .ok p => .ok ⟨(r, val) :: p.object⟩

/-- The `properties` validator configuration from `val_object.go` (lines
181–186): the name/schema mapping, an optionally decoded internal
`patternProperties` sub-validator, and the two `additionalProperties`
forms (boolean and schema; a `none` schema models the nil pointer). -/
structure properties (σ : Type) : Type where
  object : List (String × σ)
  patternProps : Option (patternProperties σ)
  additionalPropertiesBool : Bool
  additionalPropertiesObject : Option σ

/-- The per-key body of the loop in `properties.Validate` from
`val_object.go` (lines 194–219), acting on the accumulated error list
`valErrs`: exact `properties` match validates and marks the key matched;
every matching `patternProperties` entry validates and marks it matched;
an unmatched key is validated against the `additionalProperties` schema
when one is present, and otherwise the boolean form either permits the
key or replaces the error list with a fresh single-element list (the
source's single-argument `append`). -/
def properties.validateKey (validate : σ → JSON → List ValidationError)
    (p : properties σ) (valErrs : List ValidationError)
    (dataKey : String) (dataVal : JSON) : List ValidationError :=
  let step1 : List ValidationError × Bool :=
    match lookupList p.object dataKey with
    | some schema => (valErrs ++ validate schema dataVal, true)
    | none => (valErrs, false)
  let step2 : List ValidationError × Bool :=
    match p.patternProps with
    | some pp =>
      pp.object.foldl (fun acc entry =>
        if entry.1.matchString dataKey then
          (acc.1 ++ validate entry.2 dataVal, true)
        else acc) step1
    | none => step1
  if step2.2 then step2.1
  else
    match p.additionalPropertiesObject with
    | some s => step2.1 ++ validate s dataVal
    | none =>
      if !p.additionalPropertiesBool then
        [⟨"Additional properties aren't allowed"⟩]
      else step2.1

/-- The `properties.Validate` from `val_object.go` (lines 188–221): no errors
on a non-object instance; otherwise fold the per-key body over the
instance's keys. -/
def properties.Validate (validate : σ → JSON → List ValidationError)
    (p : properties σ) (v : JSON) : List ValidationError :=
  match v with
  | .obj dataMap =>
    dataMap.foldl (fun acc kv =>
      properties.validateKey validate p acc kv.1 kv.2) []
  | _ => []

/-- The `properties.SetSchema` from `val_object.go` (lines 227–242), with the
neighbouring-keyword JSON values already parsed: `decodePP`, `decodeBool`
and `decodeSchema` abstract the three `json.Unmarshal` calls (`none`
models a decode error).  The boolean form is first set to `true`; a
present `patternProperties` neighbour is decoded into the internal
sub-validator; a present `additionalProperties` value is decoded as a
boolean with errors ignored (the field keeps its prior value `true` on
failure) and, independently, as a schema (the field is reset to `none` on
failure). -/
def properties.SetSchema {Raw : Type}
    (decodePP : Raw → Option (patternProperties σ))
    (decodeBool : Raw → Option Bool) (decodeSchema : Raw → Option σ)
    (p0 : properties σ) (v : List (String × Raw)) : properties σ :=
  let p1 : properties σ := { p0 with additionalPropertiesBool := true }
  let p2 : properties σ :=
    match lookupList v "patternProperties" with
    | some raw => { p1 with patternProps := decodePP raw }
    | none => p1
  match lookupList v "additionalProperties" with
  | none => p2
  | some addVal =>
    let p3 : properties σ :=
      match decodeBool addVal with
      | some b => { p2 with additionalPropertiesBool := b }
      | none => p2
    { p3 with additionalPropertiesObject := decodeSchema addVal }

/-- The `properties` struct as Go zero-initialises it before
`UnmarshalJSON` fills the `object` field: nil internal pattern validator,
`false` boolean, nil additional-properties schema. -/
def properties.zero (object : List (String × σ)) : properties σ :=
  ⟨object, none, false, none⟩

/-- The `required` is a set of mandatory property names (Go
`map[string]struct{}`), modelled in decode order. -/
abbrev required : Type := List String

/-- The `required.Validate` from `val_object.go` (lines 246–258). -/
def required.Validate (r : required) (v : JSON) : List ValidationError :=
  match v with
  | .obj data =>
    r.foldl (fun acc key =>
      if !hasKey data key then
        acc ++ [⟨"Required error. The data must be an object with " ++ key ++
          " as one of its keys"⟩]
      else acc) []
  | _ => []

end Validators

section SpecSide

variable {σ : Type}

/-- Spec-side: a key is "matched" when it has an exact `properties`
entry or some `patternProperties` pattern matches it. -/
def matchedKey (p : properties σ) (k : String) : Bool :=
  (lookupList p.object k).isSome ||
    (match p.patternProps with
     | some pp => pp.object.any (fun e => e.1.matchString k)
     | none => false)

/-- Spec-side: the errors of validating a key's value against its exact
`properties` entry, when one exists. -/
def exactErrs (validate : σ → JSON → List ValidationError)
    (p : properties σ) (k : String) (dv : JSON) : List ValidationError :=
  match lookupList p.object k with
  | some s => validate s dv
  | none => []

/-- Spec-side: the concatenated errors of validating a key's value
against every `patternProperties` entry whose pattern matches the key,
in entry order. -/
def patternErrs (validate : σ → JSON → List ValidationError)
    (p : properties σ) (k : String) (dv : JSON) : List ValidationError :=
  match p.patternProps with
  | some pp =>
    ((pp.object.filter (fun e => e.1.matchString k)).map
      (fun e => validate e.2 dv)).flatten
  | none => []

end SpecSide

section Fixtures

/-- Fixture: `properties: {"a": …}` with `additionalProperties: false`
(no schema form), no pattern properties; sub-schemas are trivial. -/
def pC1 : properties Unit := ⟨[("a", ())], none, false, none⟩

/-- Fixture instance `{"b": 2, "c": 3}`: two keys that match neither the
`properties` mapping nor any pattern. -/
def instC1 : JSON := .obj [("b", .num 2), ("c", .num 3)]

/-- Fixture compiler for the pattern-decode witness: the key `"(bad"`
fails to compile, every other key compiles. -/
def compileW : String → Option Pattern :=
  fun s => if s = "(bad" then none else some ⟨fun _ => false⟩

end Fixtures

end VObj

namespace RRes

/-! ## Reference resolution (`reference.go`)

The schema tree is the mutual inductive family below: a `Schema` is a
keyword-to-`Node` mapping (`NodeList`, modelling the Go map `s.nodes` in
some iteration order) plus the `resolved` marker; a `Node` pairs a
validator with its embedded sub-schemas (`SchemaList`, modelling
`EmbeddedSchemas`).  For resolution only one validator shape matters:
whether the node is the `ref` placeholder; every other validator is an
opaque tag.  The shared external-document cache (`Schema.Cache` in the
source) is threaded through as explicit state, and the `http.Get` +
`ParseWithCache` composition is an oracle `fetch : String → Option
Schema`; the `Nat` component of the results counts HTTP fetches.  The Go
recursion can diverge on cyclic references (a documented limitation), so
the recursive functions take fuel; exhausting fuel returns the state
unchanged, and every claim is settled at sufficient fuel. -/

/-- A node's validator, as far as resolution can observe it: the `ref`
placeholder carrying its target string, or any other keyword validator
(opaque tag). -/
inductive RValidator : Type where
  | ref (target : String) : RValidator
  | other (id : Nat) : RValidator
deriving Repr, DecidableEq

mutual
/-- The `Schema` struct: keyword nodes plus the `resolved` marker. -/
inductive Schema : Type where
  | mk (nodes : NodeList) (resolved : Bool) : Schema
/-- The `s.nodes` mapping, keyword name to `Node`. -/
inductive NodeList : Type where
  | nil : NodeList
  | cons (key : String) (node : Node) (rest : NodeList) : NodeList
/-- A `Node`: one keyword's validator plus its `EmbeddedSchemas`. -/
inductive Node : Type where
  | mk (validator : RValidator) (embedded : SchemaList) : Node
/-- An `EmbeddedSchemas` mapping, key to sub-schema. -/
inductive SchemaList : Type where
  | nil : SchemaList
  | cons (key : String) (sch : Schema) (rest : SchemaList) : SchemaList
end

def Schema.nodes : Schema → NodeList
  | .mk ns _ => ns

def Schema.resolved : Schema → Bool
  | .mk _ r => r

def Node.validator : Node → RValidator
  | .mk v _ => v

def Node.embedded : Node → SchemaList
  | .mk _ e => e

/-- Go map read `rootSchema.nodes[k]`. -/
def nodesLookup : NodeList → String → Option Node
  | .nil, _ => none
  | .cons k n rest, key => if k = key then some n else nodesLookup rest key

/-- Go map read `v.EmbeddedSchemas[k]`. -/
def embLookup : SchemaList → String → Option Schema
  | .nil, _ => none
  | .cons k s rest, key => if k = key then some s else embLookup rest key

/-- The `hasRef` from `reference.go` (lines 93–100) over the node list: the
first node whose validator is the `ref` placeholder yields its target
string. -/
def hasRefN : NodeList → Option String
  | .nil => none
  | .cons _ n rest =>
    match n.validator with
    | .ref r => some r
    | .other _ => hasRefN rest

/-- The `Schema.hasRef`: whether this schema carries a reference keyword. -/
def Schema.hasRef (s : Schema) : Option String := hasRefN s.nodes

/-- The shared external-document cache `Schema.Cache`, keyed by
absolute-URI-without-fragment; modelled as explicit state. -/
abbrev Cache : Type := List (String × Schema)

/-- Go map write `rootSchema.Cache[cacheKey] = s` (prepending gives the
map-update semantics under first-match lookup). -/
def cacheInsert (c : Cache) (k : String) (s : Schema) : Cache := (k, s) :: c

/-- Whether the first character list is an initial segment of the
second. -/
def isHeadOf : List Char → List Char → Bool
  | [], _ => true
  | _ :: _, [] => false
  | p :: ps, c :: cs => (p = c) && isHeadOf ps cs

/-- Go `strings.TrimPrefix`: remove one occurrence of a leading piece. -/
def trimHead (s pre : String) : String :=
  if isHeadOf pre.toList s.toList then
    String.mk (s.toList.drop pre.toList.length)
  else s

/-- Go `strings.TrimSuffix`: remove one occurrence of a trailing piece. -/
def trimTail (s suf : String) : String :=
  if isHeadOf suf.toList.reverse s.toList.reverse then
    String.mk (s.toList.take (s.toList.length - suf.toList.length))
  else s

/-- Go `strings.Split(str, "/")` on character lists: split at every
`/`, keeping empty pieces (the empty input yields one empty piece). -/
def splitSlashL : List Char → List (List Char)
  | [] => [[]]
  | c :: rest =>
    if c = '/' then [] :: splitSlashL rest
    else
      match splitSlashL rest with
      | [] => [[c]]
      | s :: ss => (c :: s) :: ss

/-- Go `strings.Split(str, "/")`. -/
def splitSlash (s : String) : List String :=
  (splitSlashL s.toList).map String.mk

/-- The fragment of a URI reference: everything after the first `#`
(empty when there is no `#`).  Models `url.Fragment` from the external
`net/url` package for references whose fragment contains no
percent-escapes (`net/url` would additionally percent-decode). -/
def fragmentOf (s : String) : String :=
  String.mk ((s.toList.dropWhile (fun c => c ≠ '#')).drop 1)

/-- Scheme scanner: the remaining characters form `*(ALPHA / DIGIT / "+"
/ "-" / ".") ":"`. -/
def isSchemeTail : List Char → Bool
  | [] => false
  | ':' :: _ => true
  | c :: rest => (c.isAlphanum || c = '+' || c = '-' || c = '.') && isSchemeTail rest

/-- Models `url.Parse(str)` succeeding with `url.IsAbs()`: the string
starts with a URI scheme (`ALPHA *(ALPHA / DIGIT / "+" / "-" / ".")`
followed by `:`). -/
def isAbs (s : String) : Bool :=
  match s.toList with
  | [] => false
  | c :: rest => c.isAlpha && isSchemeTail rest

/-- The cache key computed in `refToSchema` (line 109):
`strings.TrimSuffix(str, url.Fragment)`. -/
def cacheKeyOf (str : String) : String := trimTail str (fragmentOf str)

/-- The single left-to-right replacement pass performed by
`strings.NewReplacer("~0", "~", "~1", "/", "%25", "%").Replace`: at each
position the patterns are tried in argument order, a match is replaced
and scanning continues after it, and replacement output is never
rescanned. -/
def replaceChars : List Char → List Char
  | '~' :: '0' :: rest => '~' :: replaceChars rest
  | '~' :: '1' :: rest => '/' :: replaceChars rest
  | '%' :: '2' :: '5' :: rest => '%' :: replaceChars rest
  | c :: rest => c :: replaceChars rest
  | [] => []

/-- Per-segment unescaping as `refToSchema` performs it (lines 139–142). -/
def unescapeSegment (s : String) : String := String.mk (replaceChars s.toList)

/-- The `resolveLocalPath` from `reference.go` (lines 148–171): one- and
two-segment local pointers only, with the single-segment empty string
returning the resolution root itself. -/
def resolveLocalPath (split : List String) (rootSchema : Schema)
    (str : String) : Except String Schema :=
  match split with
  | [s0] =>
    if s0 = "" then .ok rootSchema
    else
      match nodesLookup rootSchema.nodes s0 with
      | none => .error ("failed to resolve " ++ str)
      | some v =>
        match embLookup v.embedded "" with
        | some s => .ok s
        | none => .error ("failed to resolve " ++ str)
  | [s0, s1] =>
    match nodesLookup rootSchema.nodes s0 with
    | none => .error ("failed to resolve " ++ str)
    | some v =>
      match embLookup v.embedded s1 with
      | some s => .ok s
      | none => .error ("failed to resolve " ++ str)
  | _ => .error ("failed to resolve " ++ str)

/-- The trimmed pointer string of `refToSchema` (lines 134–135): strip a
single leading `#`, then a single leading `/`. -/
def trimmedOf (str : String) : String := trimHead (trimHead str "#") "/"

/-- The local part of `refToSchema` (lines 133–144): trim the leading
`#` and `/`, split on `/`, unescape each segment, and resolve the local
path against the (possibly fetched) resolution root. -/
def localPart (str : String) (rootSchema : Schema) : Except String Schema :=
  let str2 := trimmedOf str
  resolveLocalPath ((splitSlash str2).map unescapeSegment) rootSchema str2

/-- The `refToSchema` from `reference.go` (lines 105–145).  `fetch` is the
oracle for `http.Get` + `ParseWithCache` (a `none` collapses the "bad
external url" and "error parsing external doc" failures into one); the
`Nat` result counts HTTP fetches performed by this call.  For an
absolute reference the cache is consulted under the fragment-stripped
key; a miss with external loading disabled fails before any fetch; a
fetched document is stored under the cache key and becomes the
resolution root for the fragment. -/
def refToSchema (fetch : String → Option Schema) (loadExternal : Bool)
    (str : String) (rootSchema : Schema) (cache : Cache) :
    Except String Schema × Cache × Nat :=
  if isAbs str then
    let cacheKey := cacheKeyOf str
    match lookupList cache cacheKey with
    | some cachedSchema => (localPart (fragmentOf str) cachedSchema, cache, 0)
    | none =>
      if loadExternal then
        match fetch str with
        | none => (Except.error "bad external url", cache, 1)
        | some s =>
          (localPart (fragmentOf str) s, cacheInsert cache cacheKey s, 1)
      else (Except.error "external schemas are disabled", cache, 0)
  else (localPart str rootSchema, cache, 0)

/-- The `resolveSelf` from `reference.go` (lines 69–78), with fuel for the
unguarded while-a-ref-remains loop: a resolution failure leaves the
schema exactly as it was (the error is swallowed); a success replaces
the schema's value with the target's and loops. -/
def resolveSelf (fetch : String → Option Schema) (loadExternal : Bool)
    (rootSchema : Schema) : Nat → Schema → Cache → Schema × Cache × Nat
  | 0, s, c => (s, c, 0)
  | n + 1, s, c =>
    match s.hasRef with
    | none => (s, c, 0)
    | some str =>
      match refToSchema fetch loadExternal str rootSchema c with
      | (.error _, c2, k) => (s, c2, k)
      | (.ok sch, c2, k) =>
        let r := resolveSelf fetch loadExternal rootSchema n sch c2
        (r.1, r.2.1, k + r.2.2)

mutual
/-- The `resolveSelfAndBelow` from `reference.go` (lines 64–67). -/
def resolveSelfAndBelow (fetch : String → Option Schema) (ext : Bool)
    (root : Schema) : Nat → Schema → Cache → Schema × Cache × Nat
  | 0, s, c => (s, c, 0)
  | n + 1, s, c =>
    let r1 := resolveSelf fetch ext root (n + 1) s c
    let r2 := resolveBelow fetch ext root n r1.1 r1.2.1
    (r2.1, r2.2.1, r1.2.2 + r2.2.2)

/-- The `resolveBelow` from `reference.go` (lines 81–91): stop when the
`resolved` marker is set, otherwise set it and recurse into every
embedded sub-schema of every keyword node. -/
def resolveBelow (fetch : String → Option Schema) (ext : Bool)
    (root : Schema) : Nat → Schema → Cache → Schema × Cache × Nat
  | 0, s, c => (s, c, 0)
  | n + 1, s, c =>
    if s.resolved then (s, c, 0)
    else
      let r := resolveNodes fetch ext root n s.nodes c
      (Schema.mk r.1 true, r.2.1, r.2.2)

/-- The `for _, n := range s.nodes` loop of `resolveBelow`. -/
def resolveNodes (fetch : String → Option Schema) (ext : Bool)
    (root : Schema) : Nat → NodeList → Cache → NodeList × Cache × Nat
  | 0, l, c => (l, c, 0)
  | _ + 1, .nil, c => (.nil, c, 0)
  | n + 1, .cons k nd rest, c =>
    let r1 := resolveNode fetch ext root n nd c
    let r2 := resolveNodes fetch ext root n rest r1.2.1
    (.cons k r1.1 r2.1, r2.2.1, r1.2.2 + r2.2.2)

/-- Resolution of one node's embedded sub-schemas. -/
def resolveNode (fetch : String → Option Schema) (ext : Bool)
    (root : Schema) : Nat → Node → Cache → Node × Cache × Nat
  | 0, nd, c => (nd, c, 0)
  | n + 1, .mk v emb, c =>
    let r := resolveEmb fetch ext root n emb c
    (Node.mk v r.1, r.2.1, r.2.2)

/-- The `for _, sch := range n.EmbeddedSchemas` loop of `resolveBelow`. -/
def resolveEmb (fetch : String → Option Schema) (ext : Bool)
    (root : Schema) : Nat → SchemaList → Cache → SchemaList × Cache × Nat
  | 0, l, c => (l, c, 0)
  | _ + 1, .nil, c => (.nil, c, 0)
  | n + 1, .cons k sch rest, c =>
    let r1 := resolveSelfAndBelow fetch ext root n sch c
    let r2 := resolveEmb fetch ext root n rest r1.2.1
    (.cons k r1.1 r2.1, r2.2.1, r1.2.2 + r2.2.2)
end

/-- The `resolveRefs` from `reference.go` (lines 60–62): resolve self and
below, with the schema's own value at entry as the resolution root. -/
def resolveRefs (fetch : String → Option Schema) (ext : Bool)
    (fuel : Nat) (s : Schema) (c : Cache) : Schema × Cache × Nat :=
  resolveSelfAndBelow fetch ext s fuel s c

mutual
/-- No node anywhere in the schema tree carries a reference keyword. -/
def noRefsS : Schema → Bool
  | .mk ns _ => noRefsNL ns
def noRefsNL : NodeList → Bool
  | .nil => true
  | .cons _ n rest => noRefsN n && noRefsNL rest
def noRefsN : Node → Bool
  | .mk v emb =>
    (match v with | .ref _ => false | .other _ => true) && noRefsSL emb
def noRefsSL : SchemaList → Bool
  | .nil => true
  | .cons _ s rest => noRefsS s && noRefsSL rest
end

mutual
/-- Every `resolved` marker in the tree is `false` (the state of a
freshly decoded document, before the resolver has run). -/
def unresS : Schema → Bool
  | .mk ns r => !r && unresNL ns
def unresNL : NodeList → Bool
  | .nil => true
  | .cons _ n rest => unresN n && unresNL rest
def unresN : Node → Bool
  | .mk _ emb => unresSL emb
def unresSL : SchemaList → Bool
  | .nil => true
  | .cons _ s rest => unresS s && unresSL rest
end

mutual
/-- The tree with every `resolved` marker set to `true` and everything
else unchanged. -/
def markS : Schema → Schema
  | .mk ns _ => .mk (markNL ns) true
def markNL : NodeList → NodeList
  | .nil => .nil
  | .cons k n rest => .cons k (markN n) (markNL rest)
def markN : Node → Node
  | .mk v emb => .mk v (markSL emb)
def markSL : SchemaList → SchemaList
  | .nil => .nil
  | .cons k s rest => .cons k (markS s) (markSL rest)
end

mutual
/-- A size measure dominating the resolver's fuel consumption on
reference-free trees. -/
def sizeS : Schema → Nat
  | .mk ns _ => sizeNL ns + 1
def sizeNL : NodeList → Nat
  | .nil => 1
  | .cons _ n rest => sizeN n + sizeNL rest + 1
def sizeN : Node → Nat
  | .mk _ emb => sizeSL emb + 1
def sizeSL : SchemaList → Nat
  | .nil => 1
  | .cons _ s rest => sizeS s + sizeSL rest + 1
end

section SpecSide

/-- One replace-all pass of `"~0"→"~"` (non-overlapping, left to
right). -/
def seqPassTilde0 : List Char → List Char
  | '~' :: '0' :: rest => '~' :: seqPassTilde0 rest
  | c :: rest => c :: seqPassTilde0 rest
  | [] => []

/-- One replace-all pass of `"~1"→"/"`. -/
def seqPassTilde1 : List Char → List Char
  | '~' :: '1' :: rest => '/' :: seqPassTilde1 rest
  | c :: rest => c :: seqPassTilde1 rest
  | [] => []

/-- One replace-all pass of `"%25"→"%"`. -/
def seqPassPct : List Char → List Char
  | '%' :: '2' :: '5' :: rest => '%' :: seqPassPct rest
  | c :: rest => c :: seqPassPct rest
  | [] => []

/-- Spec-side reading of the per-segment unescaping claimed for
`refToSchema`: apply the replacement `"~0"→"~"`, then `"~1"→"/"`, then
`"%25"→"%"`, each as a whole-segment replace-all pass, in this exact
order. -/
def seqUnescape (s : String) : String :=
  String.mk (seqPassPct (seqPassTilde1 (seqPassTilde0 s.toList)))

/-- The local part of `refToSchema` as the sequential-replacement reading
of the claim would compute it (identical except for the per-segment
unescaping). -/
def localPartClaim (str : String) (rootSchema : Schema) : Except String Schema :=
  let str2 := trimmedOf str
  resolveLocalPath ((splitSlash str2).map seqUnescape) rootSchema str2

/-- Spec-side restatement of local path resolution: the resolution root
itself for zero meaningful segments (the split of an empty path); for
one segment the unnamed `""` entry of that keyword's embedded schemas;
for two segments the `k2` entry of keyword `k1`'s embedded schemas; a
failure in every other case. -/
def resolveLocalPathSpec (split : List String) (rootSchema : Schema)
    (str : String) : Except String Schema :=
  if split = [""] then .ok rootSchema
  else
    match split with
    | [k] =>
      match nodesLookup rootSchema.nodes k with
      | some v =>
        match embLookup v.embedded "" with
        | some s => .ok s
        | none => .error ("failed to resolve " ++ str)
      | none => .error ("failed to resolve " ++ str)
    | [k1, k2] =>
      match nodesLookup rootSchema.nodes k1 with
      | some v =>
        match embLookup v.embedded k2 with
        | some s => .ok s
        | none => .error ("failed to resolve " ++ str)
      | none => .error ("failed to resolve " ++ str)
    | _ => .error ("failed to resolve " ++ str)

end SpecSide

section Fixtures

/-- A distinguishable sub-schema (marker `true`). -/
def subA : Schema := .mk .nil true

/-- A distinguishable sub-schema (marker `false`). -/
def subB : Schema := .mk .nil false

/-- Fixture root with a keyword named `"~1"` (the key the source's
unescaping produces for the segment `"~01"`) and a keyword named `"/"`
(the key the sequential reading would produce), holding different
unnamed sub-schemas. -/
def rootC4 : Schema :=
  .mk (.cons "~1" (.mk (.other 0) (.cons "" subA .nil))
        (.cons "/" (.mk (.other 0) (.cons "" subB .nil)) .nil)) false

/-- Fixture root with a keyword `"k"` whose embedded schemas hold the
property key `"a/b~c"`. -/
def rootEx : Schema :=
  .mk (.cons "k" (.mk (.other 0) (.cons "a/b~c" subA .nil)) .nil) false

/-- Fixture: a schema whose only node is a reference placeholder for an
absolute URI. -/
def sW : Schema :=
  .mk (.cons "$ref" (.mk (.ref "http://x/a") .nil) .nil) false

/-- Fixture: a trivial root schema. -/
def rootW : Schema := .mk .nil false

/-- Fixture fetch oracle that never succeeds. -/
def fetchW : String → Option Schema := fun _ => none

/-- Fixture external document. -/
def docW : Schema := .mk .nil true

/-- Fixture fetch oracle serving exactly the URI
`"http://e/s.json#a"`. -/
def fetch5 : String → Option Schema :=
  fun s => if s = "http://e/s.json#a" then some docW else none

/-- Fixture: a reference-free, unresolved two-level schema tree. -/
def s8 : Schema :=
  .mk (.cons "properties"
        (.mk (.other 1) (.cons "a" (Schema.mk .nil false) .nil)) .nil) false

end Fixtures

end RRes

namespace Emb

/-! ## The `EmbeddedSchemas` decoder (`reference.go`, lines 16–56)

The raw bytes are modelled by an already-parsed `JSON` value (bytes that
are not valid JSON make all three attempts fail, indistinguishably from
a value of the wrong shape).  Decoding an individual value into a
`Schema` happens outside the two source files, so it is an oracle
`decode : JSON → Option σ`. -/

variable {σ : Type}

/-- Element loop of `UnmarshalArray`: decode each element, assigning the
keys `"0"`, `"1"`, … by `strconv.Itoa`. -/
def decodeElems (decode : JSON → Option σ) :
    List JSON → Nat → Option (List (String × σ))
  | [], _ => some []
  | x :: rest, i =>
    match decode x with
    | none => none
    | some s =>
      match decodeElems decode rest (i + 1) with
      | none => none
      | some l => some ((toString i, s) :: l)

/-- The `EmbeddedSchemas.UnmarshalArray` (lines 27–36): succeeds on a JSON
array whose every element decodes (and on `null`, which `encoding/json`
accepts as a nil slice), yielding index-keyed entries. -/
def unmarshalArray (decode : JSON → Option σ) :
    JSON → Option (List (String × σ))
  | .arr xs => decodeElems decode xs 0
  | .null => some []
  | _ => none

/-- Field loop of `UnmarshalObject`. -/
def decodeFields (decode : JSON → Option σ) :
    List (String × JSON) → Option (List (String × σ))
  | [] => some []
  | (k, v) :: rest =>
    match decode v with
    | none => none
    | some s =>
      match decodeFields decode rest with
      | none => none
      | some l => some ((k, s) :: l)

/-- The `EmbeddedSchemas.UnmarshalObject` (lines 38–47): succeeds on a JSON
object whose every value decodes (and on `null`), yielding
property-name-keyed entries. -/
def unmarshalObject (decode : JSON → Option σ) :
    JSON → Option (List (String × σ))
  | .obj fs => decodeFields decode fs
  | .null => some []
  | _ => none

/-- The `EmbeddedSchemas.UnmarshalSingle` (lines 49–56): decode the whole
value as one schema under the key `""`. -/
def unmarshalSingle (decode : JSON → Option σ) (b : JSON) :
    Option (List (String × σ)) :=
  (decode b).map (fun s => [("", s)])

/-- Go map assignment `(*e)[k] = v`: replace an existing binding or add
a new one. -/
def setKey : List (String × σ) → String → σ → List (String × σ)
  | [], k, v => [(k, v)]
  | (k0, v0) :: rest, k, v =>
    if k0 = k then (k, v) :: rest else (k0, v0) :: setKey rest k v

/-- Apply the writes of one decode attempt, in order. -/
def setAll (m : List (String × σ)) (entries : List (String × σ)) :
    List (String × σ) :=
  entries.foldl (fun acc kv => setKey acc kv.1 kv.2) m

/-- The `EmbeddedSchemas.UnmarshalJSON` (lines 16–25): reset the mapping,
run the three attempts independently (each successful attempt writes its
entries into the shared mapping), and fail only when all three failed. -/
def UnmarshalJSON (decode : JSON → Option σ) (b : JSON) :
    Except String (List (String × σ)) :=
  let r1 := unmarshalArray decode b
  let r2 := unmarshalObject decode b
  let r3 := unmarshalSingle decode b
  if r1.isNone && r2.isNone && r3.isNone then
    .error "no valid embedded schemas"
  else
    .ok (setAll (setAll (setAll [] (r1.getD [])) (r2.getD [])) (r3.getD []))

end Emb

/-! ## Theorems -/

/-- C1 (code evaluation at the failing input): with
`properties: {"a": …}`, `additionalProperties: false` and no pattern
properties, the instance `{"a": 1, "b": 2}` yields exactly one
"additional properties aren't allowed" error (the claim's own example,
which holds), but the instance `{"b": 2, "c": 3}` with two disallowed
keys also yields exactly one error in total: the source's
single-argument `append` replaces the accumulated error list with a
fresh single-element list on every disallowed key instead of
accumulating one error per key. -/
theorem claim_C1_eval :
    VObj.properties.Validate (fun _ _ => []) VObj.pC1
        (.obj [("a", .num 1), ("b", .num 2)])
      = [⟨"Additional properties aren't allowed"⟩] ∧
    VObj.properties.Validate (fun _ _ => []) VObj.pC1 VObj.instC1
      = [⟨"Additional properties aren't allowed"⟩] :=
  ⟨rfl, rfl⟩

/-- C9: on every instance that is not a string-keyed mapping, each
validator of the object-keyword family returns no errors
(`additionalProperties` is enforced inside the `properties` validator,
whose no-op covers it). -/
theorem claim_C9 {σ : Type} (validate : σ → JSON → List ValidationError)
    (d : VObj.dependencies σ) (mx mn : Int) (pp : VObj.patternProperties σ)
    (p : VObj.properties σ) (r : VObj.required) (v : JSON)
    (h : v.isObj = false) :
    VObj.dependencies.Validate validate d v = [] ∧
    VObj.maxProperties.Validate mx v = [] ∧
    VObj.minProperties.Validate mn v = [] ∧
    VObj.patternProperties.Validate validate pp v = [] ∧
    VObj.properties.Validate validate p v = [] ∧
    VObj.required.Validate r v = [] := by
  cases v <;>
    simp_all [VObj.dependencies.Validate, VObj.maxProperties.Validate,
      VObj.minProperties.Validate, VObj.patternProperties.Validate,
      VObj.properties.Validate, VObj.required.Validate, JSON.isObj]

/-- Witness for C9 at the non-object instance `3`. -/
theorem claim_C9_witness :
    (JSON.num 3).isObj = false ∧
    (VObj.dependencies.Validate (fun _ _ => []) (⟨[], []⟩ : VObj.dependencies Unit) (.num 3) = [] ∧
     VObj.maxProperties.Validate 0 (.num 3) = [] ∧
     VObj.minProperties.Validate 0 (.num 3) = [] ∧
     VObj.patternProperties.Validate (fun _ _ => []) (⟨[]⟩ : VObj.patternProperties Unit) (.num 3) = [] ∧
     VObj.properties.Validate (fun _ _ => []) (VObj.properties.zero ([] : List (String × Unit))) (.num 3) = [] ∧
     VObj.required.Validate [] (.num 3) = []) :=
  ⟨rfl, claim_C9 (fun _ _ => []) ⟨[], []⟩ 0 0 ⟨[]⟩ (VObj.properties.zero []) [] (.num 3) rfl⟩

/-- C10: if any key of the `patternProperties` object fails to compile
as a regular expression, the whole keyword's decode fails with an error,
regardless of the other entries. -/
theorem claim_C10 {σ : Type} (compile : String → Option VObj.Pattern)
    (m : List (String × σ)) (key : String) (s : σ)
    (hmem : (key, s) ∈ m) (hbad : compile key = none) :
    ∃ e, VObj.patternProperties.unmarshal compile m = .error e := by
  induction m with
  | nil => cases hmem
  | cons kv rest ih =>
    rcases kv with ⟨k0, s0⟩
    rcases List.mem_cons.mp hmem with heq | hmem2
    · injection heq with h1 h2
      subst h1
      exact ⟨"error parsing regexp: " ++ key,
        by simp [VObj.patternProperties.unmarshal, hbad]⟩
    · cases hc : compile k0 with
      | none =>
        exact ⟨"error parsing regexp: " ++ k0,
          by simp [VObj.patternProperties.unmarshal, hc]⟩
      | some r =>
        obtain ⟨e, he⟩ := ih hmem2
        exact ⟨e, by simp [VObj.patternProperties.unmarshal, hc, he]⟩

/-- Witness for C10: one bad pattern among good ones fails the whole
keyword. -/
theorem claim_C10_witness :
    (("(bad", ()) ∈ [("good", ()), ("(bad", ())]) ∧
    VObj.compileW "(bad" = none ∧
    ∃ e, VObj.patternProperties.unmarshal VObj.compileW
        [("good", ()), ("(bad", ())] = .error e :=
  ⟨by simp, rfl,
    claim_C10 VObj.compileW [("good", ()), ("(bad", ())] "(bad" ()
      (by simp) rfl⟩

/-- Helper: the `patternProperties` loop inside `properties.Validate`
accumulates, onto any starting state, exactly the concatenated errors of
the matching entries and the disjunction of the matches. -/
theorem patternLoop_eq {σ : Type} (validate : σ → JSON → List ValidationError)
    (k : String) (dv : JSON) (l : List (VObj.Pattern × σ)) :
    ∀ (e0 : List ValidationError) (m0 : Bool),
      l.foldl (fun acc entry =>
          if entry.1.matchString k then (acc.1 ++ validate entry.2 dv, true)
          else acc) (e0, m0)
        = (e0 ++ ((l.filter (fun e => e.1.matchString k)).map
            (fun e => validate e.2 dv)).flatten,
           m0 || l.any (fun e => e.1.matchString k)) := by
  induction l with
  | nil => intro e0 m0; simp
  | cons hd tl ih =>
    intro e0 m0
    by_cases hm : hd.1.matchString k
    · simp [hm, ih]
    · simp [hm, ih]

/-- C2: the per-key behaviour of the composed validator follows the
claimed precedence — an exact `properties` match validates against that
schema and marks the key matched, every matching `patternProperties`
entry also validates and marks it matched, and an unmatched key is
validated against the `additionalProperties` schema when the schema form
decoded (taking precedence over the boolean form) and is otherwise
governed by the boolean form; `properties.Validate` folds this per-key
behaviour over the instance's keys; and `SetSchema` decodes
`additionalProperties` so that the schema field holds exactly the result
of the schema-decode attempt while the boolean field defaults to `true`
when the keyword is absent or its boolean decode fails. -/
theorem claim_C2 {σ : Type} (validate : σ → JSON → List ValidationError)
    (p : VObj.properties σ) (valErrs : List ValidationError)
    (dataKey : String) (dataVal : JSON) :
    (VObj.properties.validateKey validate p valErrs dataKey dataVal =
      if VObj.matchedKey p dataKey then
        valErrs ++ VObj.exactErrs validate p dataKey dataVal
          ++ VObj.patternErrs validate p dataKey dataVal
      else
        match p.additionalPropertiesObject with
        | some s => valErrs ++ validate s dataVal
        | none =>
          if p.additionalPropertiesBool then valErrs
          else [⟨"Additional properties aren't allowed"⟩]) ∧
    (∀ fs, VObj.properties.Validate validate p (.obj fs)
      = fs.foldl (fun acc kv =>
          VObj.properties.validateKey validate p acc kv.1 kv.2) []) ∧
    (∀ (Raw : Type) (decodePP : Raw → Option (VObj.patternProperties σ))
        (decodeBool : Raw → Option Bool) (decodeSchema : Raw → Option σ)
        (object : List (String × σ)) (v : List (String × Raw)),
      (VObj.properties.SetSchema decodePP decodeBool decodeSchema
          (VObj.properties.zero object) v).additionalPropertiesObject
        = (match lookupList v "additionalProperties" with
           | some raw => decodeSchema raw
           | none => none) ∧
      (VObj.properties.SetSchema decodePP decodeBool decodeSchema
          (VObj.properties.zero object) v).additionalPropertiesBool
        = (match lookupList v "additionalProperties" with
           | some raw => (decodeBool raw).getD true
           | none => true)) := by
  refine ⟨?_, fun fs => rfl, ?_⟩
  · unfold VObj.properties.validateKey VObj.matchedKey VObj.exactErrs
      VObj.patternErrs
    cases hobj : lookupList p.object dataKey with
    | some s =>
      cases hpp : p.patternProps with
      | some pp => simp [patternLoop_eq]
      | none => simp
    | none =>
      cases hpp : p.patternProps with
      | some pp =>
        by_cases hany : pp.object.any (fun e => e.1.matchString dataKey)
        · simp [patternLoop_eq, hany]
        · have hany' : pp.object.any (fun e => e.1.matchString dataKey) = false := by
            simpa using hany
          have hfil : pp.object.filter (fun e => e.1.matchString dataKey) = [] :=
            List.filter_eq_nil_iff.mpr (List.any_eq_false.mp hany')
          simp [patternLoop_eq, hany, hfil]
          cases p.additionalPropertiesObject with
          | some s => rfl
          | none => cases p.additionalPropertiesBool <;> rfl
      | none =>
        simp
        cases p.additionalPropertiesObject with
        | some s => rfl
        | none => cases p.additionalPropertiesBool <;> rfl
  · intro Raw decodePP decodeBool decodeSchema object v
    unfold VObj.properties.SetSchema VObj.properties.zero
    cases hpp : lookupList v "patternProperties" <;>
      cases hadd : lookupList v "additionalProperties" <;>
        simp [hpp, hadd] <;>
          cases hb : decodeBool _ <;> simp [hb]

/-- C7: local path resolution agrees everywhere with the spec's
case description (root for the zero-meaningful-segment split, the
unnamed `""` entry for one segment, the `k2` entry of keyword `k1` for
two segments, and a "failed to resolve" error for every other segment
count or lookup miss). -/
theorem claim_C7 (split : List String) (root : RRes.Schema) (str : String) :
    RRes.resolveLocalPath split root str
      = RRes.resolveLocalPathSpec split root str := by
  rcases split with _ | ⟨a, _ | ⟨b, _ | ⟨c, rest⟩⟩⟩
  · simp [RRes.resolveLocalPath, RRes.resolveLocalPathSpec]
  · by_cases ha : a = ""
    · subst ha
      simp [RRes.resolveLocalPath, RRes.resolveLocalPathSpec]
    · simp [RRes.resolveLocalPath, RRes.resolveLocalPathSpec, ha]
      cases RRes.nodesLookup root.nodes a <;> rfl
  · simp [RRes.resolveLocalPath, RRes.resolveLocalPathSpec]
    cases RRes.nodesLookup root.nodes a <;> rfl
  · simp [RRes.resolveLocalPath, RRes.resolveLocalPathSpec]

/-- Helper: a map write binds exactly the written key on top of the
previous bindings. -/
theorem lookup_setKey {σ : Type} (m : List (String × σ)) (k0 k : String)
    (v : σ) :
    lookupList (Emb.setKey m k0 v) k
      = if k0 = k then some v else lookupList m k := by
  induction m with
  | nil => simp [Emb.setKey, lookupList]
  | cons hd tl ih =>
    rcases hd with ⟨k1, v1⟩
    by_cases h1 : k1 = k0 <;> by_cases h2 : k0 = k <;> by_cases h3 : k1 = k <;>
      simp_all [Emb.setKey, lookupList]

/-- Helper: key presence after one write. -/
theorem hasKey_setKey {σ : Type} (m : List (String × σ)) (k0 k : String)
    (v : σ) :
    hasKey (Emb.setKey m k0 v) k = (decide (k0 = k) || hasKey m k) := by
  by_cases h : k0 = k <;> simp [hasKey, lookup_setKey, h]

/-- Helper: key presence after applying all the writes of one decode
attempt. -/
theorem hasKey_setAll {σ : Type} (l : List (String × σ))
    (m : List (String × σ)) (k : String) :
    hasKey (Emb.setAll m l) k = (hasKey m k || hasKey l k) := by
  induction l generalizing m with
  | nil => simp [Emb.setAll, hasKey, lookupList]
  | cons hd tl ih =>
    rcases hd with ⟨k1, v1⟩
    have step : Emb.setAll m ((k1, v1) :: tl) = Emb.setAll (Emb.setKey m k1 v1) tl := rfl
    rw [step, ih, hasKey_setKey]
    by_cases h : k1 = k <;> simp [hasKey, lookupList, h]

/-- C6: the `EmbeddedSchemas` decoder makes three independent attempts
(array-, object- and single-shaped); it fails exactly when all three
fail, and on success the resulting mapping holds precisely the keys
contributed by the attempts that succeeded. -/
theorem claim_C6 {σ : Type} (decode : JSON → Option σ) (b : JSON) :
    ((∃ e, Emb.UnmarshalJSON decode b = .error e) ↔
      (Emb.unmarshalArray decode b = none ∧
       Emb.unmarshalObject decode b = none ∧
       Emb.unmarshalSingle decode b = none)) ∧
    (∀ m, Emb.UnmarshalJSON decode b = .ok m → ∀ k,
      hasKey m k =
        (hasKey ((Emb.unmarshalArray decode b).getD []) k ||
         hasKey ((Emb.unmarshalObject decode b).getD []) k ||
         hasKey ((Emb.unmarshalSingle decode b).getD []) k)) := by
  unfold Emb.UnmarshalJSON
  by_cases hc : ((Emb.unmarshalArray decode b).isNone &&
      (Emb.unmarshalObject decode b).isNone &&
      (Emb.unmarshalSingle decode b).isNone) = true
  · constructor
    · simp only [hc, if_pos rfl]
      constructor
      · intro _
        simp only [Bool.and_eq_true, Option.isNone_iff_eq_none] at hc
        exact ⟨hc.1.1, hc.1.2, hc.2⟩
      · intro _
        exact ⟨"no valid embedded schemas", by simp⟩
    · intro m hm
      simp [hc] at hm
  · constructor
    · constructor
      · intro ⟨e, he⟩
        simp [hc] at he
      · intro ⟨ha, ho, hs⟩
        exact absurd (by simp [ha, ho, hs]) hc
    · intro m hm k
      simp only [hc, if_neg] at hm
      rw [if_neg (by simp [hc])] at hm
      injection hm with hm2
      subst hm2
      rw [hasKey_setAll, hasKey_setAll, hasKey_setAll]
      simp [hasKey, lookupList, Bool.or_assoc]

/-- Witness for C6: with a never-succeeding schema decoder the `3`
value makes all three attempts fail and decoding errors; with an
always-succeeding decoder the single-schema attempt contributes the key
`""`. -/
theorem claim_C6_witness :
    (∃ e, Emb.UnmarshalJSON (fun _ => (none : Option Unit)) (.num 3) = .error e) ∧
    (∀ k, hasKey [("", ())] k =
      (hasKey ((Emb.unmarshalArray (fun _ => (some () : Option Unit)) (.num 3)).getD []) k ||
       hasKey ((Emb.unmarshalObject (fun _ => (some () : Option Unit)) (.num 3)).getD []) k ||
       hasKey ((Emb.unmarshalSingle (fun _ => (some () : Option Unit)) (.num 3)).getD []) k)) :=
  ⟨(claim_C6 (fun _ => none) (.num 3)).1.mpr ⟨rfl, rfl, rfl⟩,
    fun k => (claim_C6 (fun _ => some ()) (.num 3)).2 [("", ())] rfl k⟩

/-- C4 counterexample: for the reference `"#/~01"` the source resolves
the segment `"~01"` to the keyword `"~1"` (single replacement pass),
whereas the claimed sequential application of `"~0"→"~"` then
`"~1"→"/"` then `"%25"→"%"` would produce the keyword `"/"`; the two
resolve to different sub-schemas of `rootC4`. -/
theorem claim_C4_counterexample :
    RRes.refToSchema (fun _ => none) true "#/~01" RRes.rootC4 []
      = (.ok RRes.subA, [], 0) ∧
    RRes.localPartClaim "#/~01" RRes.rootC4 = .ok RRes.subB ∧
    RRes.subA ≠ RRes.subB := by
  refine ⟨rfl, rfl, fun h => ?_⟩
  have h2 := congrArg RRes.Schema.resolved h
  simp [RRes.subA, RRes.subB, RRes.Schema.resolved] at h2

/-- C4 (amended): for every non-absolute reference string, `refToSchema`
strips one leading `"#"` and one leading `"/"`, splits on `"/"`, and
unescapes each segment in a single left-to-right pass that tries
`"~0"→"~"`, `"~1"→"/"`, `"%25"→"%"` in that priority order without
rescanning replacement output (not as three sequential whole-segment
passes); in particular the pointer segment `"a~1b~0c"` unescapes to
`"a/b~c"` and resolves to that property key. -/
theorem claim_C4_amended (fetch : String → Option RRes.Schema) (ext : Bool)
    (str : String) (root : RRes.Schema) (c : RRes.Cache)
    (h : RRes.isAbs str = false) :
    RRes.refToSchema fetch ext str root c
      = (RRes.resolveLocalPath
          ((RRes.splitSlash (RRes.trimmedOf str)).map RRes.unescapeSegment)
          root (RRes.trimmedOf str), c, 0) ∧
    RRes.unescapeSegment "a~1b~0c" = "a/b~c" ∧
    RRes.localPart "#/k/a~1b~0c" RRes.rootEx = .ok RRes.subA := by
  refine ⟨?_, rfl, rfl⟩
  simp [RRes.refToSchema, h, RRes.localPart]

/-- Witness for the amended C4 at the reference `"#/k/a~1b~0c"`. -/
theorem claim_C4_amended_witness :
    RRes.isAbs "#/k/a~1b~0c" = false ∧
    (RRes.refToSchema (fun _ => none) true "#/k/a~1b~0c" RRes.rootEx []
      = (RRes.resolveLocalPath
          ((RRes.splitSlash (RRes.trimmedOf "#/k/a~1b~0c")).map RRes.unescapeSegment)
          RRes.rootEx (RRes.trimmedOf "#/k/a~1b~0c"), [], 0) ∧
     RRes.unescapeSegment "a~1b~0c" = "a/b~c" ∧
     RRes.localPart "#/k/a~1b~0c" RRes.rootEx = .ok RRes.subA) :=
  ⟨rfl, claim_C4_amended (fun _ => none) true "#/k/a~1b~0c" RRes.rootEx [] rfl⟩

/-- Helper: every schema is its constructor applied to its fields. -/
theorem schema_eta : ∀ s : RRes.Schema, s = .mk s.nodes s.resolved
  | .mk _ _ => rfl

/-- Helper: constructor cases for node lists. -/
theorem nodeList_cases : ∀ l : RRes.NodeList,
    l = .nil ∨ ∃ k n rest, l = .cons k n rest
  | .nil => Or.inl rfl
  | .cons k n rest => Or.inr ⟨k, n, rest, rfl⟩

/-- Helper: every node is its constructor applied to its fields. -/
theorem node_eta : ∀ nd : RRes.Node, nd = .mk nd.validator nd.embedded
  | .mk _ _ => rfl

/-- Helper: constructor cases for schema lists. -/
theorem schemaList_cases : ∀ l : RRes.SchemaList,
    l = .nil ∨ ∃ k s rest, l = .cons k s rest
  | .nil => Or.inl rfl
  | .cons k s rest => Or.inr ⟨k, s, rest, rfl⟩

/-- Helper: the size measure of a schema is positive. -/
theorem sizeS_pos : ∀ s : RRes.Schema, 1 ≤ RRes.sizeS s
  | .mk ns _ => by simp [RRes.sizeS]

/-- Helper: the size measure of a node list is positive. -/
theorem sizeNL_pos : ∀ l : RRes.NodeList, 1 ≤ RRes.sizeNL l
  | .nil => by simp [RRes.sizeNL]
  | .cons _ _ _ => by simp [RRes.sizeNL]

/-- Helper: the size measure of a node is positive. -/
theorem sizeN_pos : ∀ nd : RRes.Node, 1 ≤ RRes.sizeN nd
  | .mk _ _ => by simp [RRes.sizeN]

/-- Helper: the size measure of a schema list is positive. -/
theorem sizeSL_pos : ∀ l : RRes.SchemaList, 1 ≤ RRes.sizeSL l
  | .nil => by simp [RRes.sizeSL]
  | .cons _ _ _ => by simp [RRes.sizeSL]

/-- Helper: a node list without reference validators has no `ref`. -/
theorem hasRefN_eq_none : ∀ l : RRes.NodeList,
    RRes.noRefsNL l = true → RRes.hasRefN l = none
  | .nil, _ => rfl
  | .cons k nd rest, h => by
    rcases nd with ⟨v, emb⟩
    cases v with
    | ref r => simp [RRes.noRefsNL, RRes.noRefsN] at h
    | other id =>
      simp [RRes.noRefsNL, RRes.noRefsN] at h
      simpa [RRes.hasRefN, RRes.Node.validator] using
        hasRefN_eq_none rest h.2

/-- Helper: a reference-free schema carries no reference keyword. -/
theorem hasRef_none_of_noRefsS : ∀ s : RRes.Schema,
    RRes.noRefsS s = true → RRes.Schema.hasRef s = none
  | .mk ns r, h =>
    hasRefN_eq_none ns (by simpa [RRes.noRefsS] using h)

/-- Helper: `resolveSelf` is the identity on a schema that carries no
reference keyword, at every fuel. -/
theorem resolveSelf_noRef (fetch : String → Option RRes.Schema)
    (ext : Bool) (root s : RRes.Schema) (c : RRes.Cache)
    (h : RRes.Schema.hasRef s = none) :
    ∀ n, RRes.resolveSelf fetch ext root n s c = (s, c, 0)
  | 0 => rfl
  | n + 1 => by simp [RRes.resolveSelf, h]

/-- Main resolution lemma for reference-free trees: with enough fuel,
every stage of the resolver returns its input with all `resolved`
markers set, leaves the cache untouched and performs no fetch. -/
theorem resolveAux (fetch : String → Option RRes.Schema) (ext : Bool)
    (root : RRes.Schema) :
    ∀ m : Nat,
    (∀ (s : RRes.Schema) (c : RRes.Cache),
      RRes.noRefsS s = true → RRes.unresS s = true → RRes.sizeS s < m →
      RRes.resolveSelfAndBelow fetch ext root m s c = (RRes.markS s, c, 0)) ∧
    (∀ (s : RRes.Schema) (c : RRes.Cache),
      RRes.noRefsS s = true → RRes.unresS s = true → RRes.sizeS s ≤ m →
      RRes.resolveBelow fetch ext root m s c = (RRes.markS s, c, 0)) ∧
    (∀ (l : RRes.NodeList) (c : RRes.Cache),
      RRes.noRefsNL l = true → RRes.unresNL l = true → RRes.sizeNL l ≤ m →
      RRes.resolveNodes fetch ext root m l c = (RRes.markNL l, c, 0)) ∧
    (∀ (nd : RRes.Node) (c : RRes.Cache),
      RRes.noRefsN nd = true → RRes.unresN nd = true → RRes.sizeN nd ≤ m →
      RRes.resolveNode fetch ext root m nd c = (RRes.markN nd, c, 0)) ∧
    (∀ (l : RRes.SchemaList) (c : RRes.Cache),
      RRes.noRefsSL l = true → RRes.unresSL l = true → RRes.sizeSL l ≤ m →
      RRes.resolveEmb fetch ext root m l c = (RRes.markSL l, c, 0))
  | 0 => by
    refine ⟨?_, ?_, ?_, ?_, ?_⟩
    · intro s c _ _ hsz
      exact absurd hsz (by omega)
    · intro s c _ _ hsz
      have := sizeS_pos s
      exact absurd hsz (by omega)
    · intro l c _ _ hsz
      have := sizeNL_pos l
      exact absurd hsz (by omega)
    · intro nd c _ _ hsz
      have := sizeN_pos nd
      exact absurd hsz (by omega)
    · intro l c _ _ hsz
      have := sizeSL_pos l
      exact absurd hsz (by omega)
  | n + 1 => by
    obtain ⟨An, Bn, Cn, Dn, En⟩ := resolveAux fetch ext root n
    refine ⟨?_, ?_, ?_, ?_, ?_⟩
    · -- resolveSelfAndBelow
      intro s c hnr hur hsz
      have h1 := resolveSelf_noRef fetch ext root s c
        (hasRef_none_of_noRefsS s hnr) (n + 1)
      have h2 := Bn s c hnr hur (by omega)
      simp [RRes.resolveSelfAndBelow, h1, h2]
    · -- resolveBelow
      intro s c hnr hur hsz
      rcases s with ⟨ns, r⟩
      have hr : r = false ∧ RRes.unresNL ns = true := by
        simpa [RRes.unresS] using hur
      have hnr2 : RRes.noRefsNL ns = true := by
        simpa [RRes.noRefsS] using hnr
      have hs2 : RRes.sizeNL ns ≤ n := by
        have : RRes.sizeS (.mk ns r) = RRes.sizeNL ns + 1 := by
          simp [RRes.sizeS]
        omega
      have h1 := Cn ns c hnr2 hr.2 hs2
      simp [RRes.resolveBelow, RRes.Schema.resolved, RRes.Schema.nodes,
        hr.1, h1, RRes.markS]
    · -- resolveNodes
      intro l c hnr hur hsz
      rcases nodeList_cases l with rfl | ⟨k, nd, rest, rfl⟩
      · simp [RRes.resolveNodes, RRes.markNL]
      · have hconj : RRes.noRefsN nd = true ∧ RRes.noRefsNL rest = true := by
          simpa [RRes.noRefsNL] using hnr
        have huconj : RRes.unresN nd = true ∧ RRes.unresNL rest = true := by
          simpa [RRes.unresNL] using hur
        have hsz2 : RRes.sizeN nd + RRes.sizeNL rest + 1 ≤ n + 1 := by
          simpa [RRes.sizeNL] using hsz
        have hpos1 := sizeN_pos nd
        have hpos2 := sizeNL_pos rest
        have h1 := Dn nd c hconj.1 huconj.1 (by omega)
        have h2 := Cn rest c hconj.2 huconj.2 (by omega)
        simp [RRes.resolveNodes, h1, h2, RRes.markNL]
    · -- resolveNode
      intro nd c hnr hur hsz
      rcases nd with ⟨v, emb⟩
      have hnr2 : RRes.noRefsSL emb = true := by
        cases v <;> simp_all [RRes.noRefsN]
      have hur2 : RRes.unresSL emb = true := by
        simpa [RRes.unresN] using hur
      have hsz2 : RRes.sizeSL emb ≤ n := by
        have : RRes.sizeN (.mk v emb) = RRes.sizeSL emb + 1 := by
          simp [RRes.sizeN]
        omega
      have h1 := En emb c hnr2 hur2 hsz2
      simp [RRes.resolveNode, h1, RRes.markN]
    · -- resolveEmb
      intro l c hnr hur hsz
      rcases schemaList_cases l with rfl | ⟨k, sch, rest, rfl⟩
      · simp [RRes.resolveEmb, RRes.markSL]
      · have hconj : RRes.noRefsS sch = true ∧ RRes.noRefsSL rest = true := by
          simpa [RRes.noRefsSL] using hnr
        have huconj : RRes.unresS sch = true ∧ RRes.unresSL rest = true := by
          simpa [RRes.unresSL] using hur
        have hsz2 : RRes.sizeS sch + RRes.sizeSL rest + 1 ≤ n + 1 := by
          simpa [RRes.sizeSL] using hsz
        have hpos1 := sizeS_pos sch
        have hpos2 := sizeSL_pos rest
        have h1 := An sch c hconj.1 huconj.1 (by omega)
        have h2 := En rest c hconj.2 huconj.2 (by omega)
        simp [RRes.resolveEmb, h1, h2, RRes.markSL]

/-- C8: on a schema tree with no reference keywords (freshly decoded,
so every `resolved` marker is still `false`), running reference
resolution with sufficient fuel changes nothing except the markers:
the result is exactly the input tree with every reachable node's
`resolved` marker set to `true`, the cache is untouched and no fetch is
performed. -/
theorem claim_C8 (fetch : String → Option RRes.Schema) (ext : Bool)
    (s : RRes.Schema) (c : RRes.Cache) (m : Nat)
    (h1 : RRes.noRefsS s = true) (h2 : RRes.unresS s = true)
    (h3 : RRes.sizeS s < m) :
    RRes.resolveRefs fetch ext m s c = (RRes.markS s, c, 0) :=
  (resolveAux fetch ext s m).1 s c h1 h2 h3

/-- Witness for C8 at a concrete two-level reference-free tree. -/
theorem claim_C8_witness :
    RRes.noRefsS RRes.s8 = true ∧ RRes.unresS RRes.s8 = true ∧
    RRes.sizeS RRes.s8 < 9 ∧
    RRes.resolveRefs RRes.fetchW true 9 RRes.s8 []
      = (RRes.markS RRes.s8, [], 0) :=
  ⟨rfl, rfl, by decide,
    claim_C8 RRes.fetchW true RRes.s8 [] 9 rfl rfl (by decide)⟩

/-- C3: a failing reference resolution during self-resolution is
swallowed — the schema value is returned exactly as it was and
`resolveSelf` surfaces no error; and with external loading disabled, an
absolute-URI reference that is not cached fails with the
"external schemas are disabled" error (before any fetch and without
touching the cache). -/
theorem claim_C3 (fetch : String → Option RRes.Schema) (ext : Bool)
    (root : RRes.Schema) :
    (∀ (n : Nat) (s : RRes.Schema) (c : RRes.Cache) (r e : String)
        (c2 : RRes.Cache) (k : Nat),
      s.hasRef = some r →
      RRes.refToSchema fetch ext r root c = (.error e, c2, k) →
      RRes.resolveSelf fetch ext root (n + 1) s c = (s, c2, k)) ∧
    (∀ (r : String) (root2 : RRes.Schema) (c : RRes.Cache),
      RRes.isAbs r = true →
      lookupList c (RRes.cacheKeyOf r) = none →
      RRes.refToSchema fetch false r root2 c
        = (.error "external schemas are disabled", c, 0)) := by
  constructor
  · intro n s c r e c2 k href herr
    simp [RRes.resolveSelf, href, herr]
  · intro r root2 c habs hmiss
    simp [RRes.refToSchema, habs, hmiss]

/-- Witness for C3: a node referencing `"http://x/a"` with external
loading disabled stays exactly as it was. -/
theorem claim_C3_witness :
    RRes.Schema.hasRef RRes.sW = some "http://x/a" ∧
    RRes.isAbs "http://x/a" = true ∧
    lookupList ([] : RRes.Cache) (RRes.cacheKeyOf "http://x/a") = none ∧
    RRes.refToSchema RRes.fetchW false "http://x/a" RRes.rootW []
      = (.error "external schemas are disabled", [], 0) ∧
    RRes.resolveSelf RRes.fetchW false RRes.rootW (4 + 1) RRes.sW []
      = (RRes.sW, [], 0) :=
  ⟨rfl, rfl, rfl,
    (claim_C3 RRes.fetchW false RRes.rootW).2 "http://x/a" RRes.rootW []
      rfl rfl,
    (claim_C3 RRes.fetchW false RRes.rootW).1 4 RRes.sW []
      "http://x/a" "external schemas are disabled" [] 0 rfl
      ((claim_C3 RRes.fetchW false RRes.rootW).2 "http://x/a" RRes.rootW []
        rfl rfl)⟩

/-- C5: for two absolute references sharing the fragment-stripped cache
key, starting from a cache that misses that key, the first resolution
performs exactly one fetch and stores the fetched document under the
key, and the second resolution performs no fetch, reusing the cached
document as its resolution root. -/
theorem claim_C5 (fetch : String → Option RRes.Schema) (r1 r2 : String)
    (root : RRes.Schema) (c0 : RRes.Cache) (doc : RRes.Schema)
    (h1 : RRes.isAbs r1 = true) (h2 : RRes.isAbs r2 = true)
    (hkey : RRes.cacheKeyOf r1 = RRes.cacheKeyOf r2)
    (hmiss : lookupList c0 (RRes.cacheKeyOf r1) = none)
    (hfetch : fetch r1 = some doc) :
    RRes.refToSchema fetch true r1 root c0
      = (RRes.localPart (RRes.fragmentOf r1) doc,
         RRes.cacheInsert c0 (RRes.cacheKeyOf r1) doc, 1) ∧
    RRes.refToSchema fetch true r2 root
        (RRes.cacheInsert c0 (RRes.cacheKeyOf r1) doc)
      = (RRes.localPart (RRes.fragmentOf r2) doc,
         RRes.cacheInsert c0 (RRes.cacheKeyOf r1) doc, 0) := by
  constructor
  · simp [RRes.refToSchema, h1, hmiss, hfetch]
  · have hhit : lookupList (RRes.cacheInsert c0 (RRes.cacheKeyOf r1) doc)
        (RRes.cacheKeyOf r2) = some doc := by
      simp [RRes.cacheInsert, lookupList, hkey]
    simp [RRes.refToSchema, h2, hhit]

/-- Witness for C5 at the references `"http://e/s.json#a"` and
`"http://e/s.json#b"` (same absolute URI, different fragments). -/
theorem claim_C5_witness :
    RRes.isAbs "http://e/s.json#a" = true ∧
    RRes.isAbs "http://e/s.json#b" = true ∧
    RRes.cacheKeyOf "http://e/s.json#a" = RRes.cacheKeyOf "http://e/s.json#b" ∧
    lookupList ([] : RRes.Cache) (RRes.cacheKeyOf "http://e/s.json#a") = none ∧
    RRes.fetch5 "http://e/s.json#a" = some RRes.docW ∧
    (RRes.refToSchema RRes.fetch5 true "http://e/s.json#a" RRes.rootW []
      = (RRes.localPart (RRes.fragmentOf "http://e/s.json#a") RRes.docW,
         RRes.cacheInsert [] (RRes.cacheKeyOf "http://e/s.json#a") RRes.docW, 1) ∧
     RRes.refToSchema RRes.fetch5 true "http://e/s.json#b" RRes.rootW
        (RRes.cacheInsert [] (RRes.cacheKeyOf "http://e/s.json#a") RRes.docW)
      = (RRes.localPart (RRes.fragmentOf "http://e/s.json#b") RRes.docW,
         RRes.cacheInsert [] (RRes.cacheKeyOf "http://e/s.json#a") RRes.docW, 0)) :=
  ⟨rfl, rfl, rfl, rfl, rfl,
    claim_C5 RRes.fetch5 "http://e/s.json#a" "http://e/s.json#b"
      RRes.rootW [] RRes.docW rfl rfl rfl rfl rfl⟩

end Jsonschema
